import Mathlib

/-!
Verification of the retrieval core of the `ai-research` RAG document assistant
(variant `app-1`): the chunker, the vector-store operations built on a ChromaDB
collection (`vector_store.py`), the text normalizer (`processor.py`) and the
answer composer (`llm.py`).

Python string primitives (`str.split`, `str.strip`, `str.replace`, slicing)
are re-implemented here over `List Char` with Python semantics, because the
corresponding Lean core functions do not reduce well in the kernel.  The
external collaborators (the ChromaDB collection and the LLM provider HTTP
clients) are modelled explicitly: the collection as a list of entries with the
documented filter/upsert/delete semantics, a provider call as an oracle
function returning either an answer or an error message.
-/

namespace RAG

/-! Section: Python-style scalar values

`vector_store.py` receives `user_id` / `document_id` / `doc_id` arguments that
may be `None`, an `int` (SQLAlchemy primary keys) or a `str`; it tests them for
truthiness (`if user_id:`) and stringifies them (`str(user_id)`). -/

/-- A Python scalar as passed for `user_id` / `document_id` arguments:
`None`, an `int`, or a `str`. -/
inductive PyVal where
  | none
  | int (n : Int)
  | str (s : String)
deriving DecidableEq, Repr

/-- Python truthiness of a `PyVal`: `None` and `0` and `""` are falsy. -/
def PyVal.truthy : PyVal → Bool
  | .none => false
  | .int n => n != 0
  | .str s => s != ""

/-- Python `str(v)`. -/
def PyVal.toStr : PyVal → String
  | .none => "None"
  | .int n => Int.repr n
  | .str s => s

/-! Section: Python string helpers -/

/-- Helper for `pyWords`: accumulates the current word while scanning. -/
def pyWordsAux : List Char → List Char → List (List Char)
  | cur, [] => if cur.isEmpty then [] else [cur]
  | cur, c :: rest =>
    if c.isWhitespace then
      if cur.isEmpty then pyWordsAux [] rest else cur :: pyWordsAux [] rest
    else
      pyWordsAux (cur ++ [c]) rest

/-- Python `text.split()` (no argument): split on runs of whitespace,
discarding empty strings. -/
def pyWords (s : String) : List String :=
  (pyWordsAux [] s.data).map List.asString

/-- Python `' '.join(ws)`. -/
def joinSp (ws : List String) : String :=
  String.intercalate " " ws

/-- Python `l[-n:]` for `n ≥ 1`: the last `min n (length l)` elements.
(Only used with positive `n`; Python `l[-0:]` would differ.) -/
def lastN (n : Nat) (l : List α) : List α :=
  l.drop (l.length - n)

/-- Python `s[:n]` on a string (character based). -/
def pyTake (s : String) (n : Nat) : String :=
  (s.data.take n).asString

/-! Section: Chunker (`VectorStore.chunk_text`, vector_store.py lines 27-52) -/

/-- One iteration of the `for word in words` loop of `chunk_text`: append the
word to the running buffer; if the joined buffer now exceeds `chunk_size`
characters, emit it as a chunk and carry over the last
`max(1, overlap // 5)` words (or nothing when `overlap` is falsy). -/
def chunkStep (chunk_size overlap : Nat) (st : List String × List String)
    (word : String) : List String × List String :=
  let chunk_words := st.2 ++ [word]
  if (joinSp chunk_words).length > chunk_size then
    let overlap_word_count := if overlap != 0 then max 1 (overlap / 5) else 0
    (st.1 ++ [joinSp chunk_words],
     if overlap_word_count > 0 then lastN overlap_word_count chunk_words else [])
  else
    (st.1, chunk_words)

/-- Model of `VectorStore.chunk_text(text, chunk_size, overlap)`: split `text` on
whitespace, accumulate words until the joined length exceeds `chunk_size`,
emit, carry the overlap words forward, and emit any remaining buffer as a
final chunk.  (The Python defaults are `chunk_size=500, overlap=50`; callers
of this definition pass them explicitly.) -/
def chunk_text (text : String) (chunk_size overlap : Nat) : List String :=
  let st := (pyWords text).foldl (chunkStep chunk_size overlap) ([], [])
  if st.2.isEmpty then st.1 else st.1 ++ [joinSp st.2]

/-- Token-level mirror of `chunkStep`: identical control flow, but chunks are
kept as word lists instead of joined strings. -/
def chunkStepT (chunk_size overlap : Nat)
    (st : List (List String) × List String) (word : String) :
    List (List String) × List String :=
  let chunk_words := st.2 ++ [word]
  if (joinSp chunk_words).length > chunk_size then
    let overlap_word_count := if overlap != 0 then max 1 (overlap / 5) else 0
    (st.1 ++ [chunk_words],
     if overlap_word_count > 0 then lastN overlap_word_count chunk_words else [])
  else
    (st.1, chunk_words)

/-- Token-level view of `chunk_text`: the same fold producing each chunk as
its list of words. -/
def chunkTokens (words : List String) (chunk_size overlap : Nat) :
    List (List String) :=
  let st := words.foldl (chunkStepT chunk_size overlap) ([], [])
  if st.2.isEmpty then st.1 else st.1 ++ [st.2]

theorem foldl_chunkStep_eq_tokens (cs ov : Nat) (ws : List String) :
    ∀ st : List (List String) × List String,
      ws.foldl (chunkStep cs ov) (st.1.map joinSp, st.2) =
        ((ws.foldl (chunkStepT cs ov) st).1.map joinSp,
         (ws.foldl (chunkStepT cs ov) st).2) := by
  induction ws with
  | nil => intro st; rfl
  | cons w ws ih =>
    intro st
    simp only [List.foldl_cons]
    have hstep : chunkStep cs ov (st.1.map joinSp, st.2) w =
        ((chunkStepT cs ov st w).1.map joinSp, (chunkStepT cs ov st w).2) := by
      simp only [chunkStep, chunkStepT]
      by_cases h : (joinSp (st.2 ++ [w])).length > cs
      · simp [h, List.map_append]
      · simp [h]
    rw [hstep, ih (chunkStepT cs ov st w)]

/-- Fact: `chunk_text` is the joined form of the token-level chunker. -/
theorem chunk_text_eq_map_join (text : String) (cs ov : Nat) :
    chunk_text text cs ov = (chunkTokens (pyWords text) cs ov).map joinSp := by
  unfold chunk_text chunkTokens
  have h := foldl_chunkStep_eq_tokens cs ov (pyWords text) ([], [])
  simp only [List.map_nil] at h
  rw [h]
  by_cases hbuf : ((pyWords text).foldl (chunkStepT cs ov) ([], [])).2.isEmpty
  · simp [hbuf]
  · simp [hbuf, List.map_append]

/-- Every chunk accumulated by the loop (i.e. every chunk except possibly the
final flush) has joined length strictly greater than `chunk_size`: the loop
only emits once the running chunk exceeds the limit. -/
theorem foldl_chunkStep_all_long (cs ov : Nat) (ws : List String) :
    ∀ st : List String × List String,
      (∀ x ∈ st.1, x.length > cs) →
      ∀ x ∈ (ws.foldl (chunkStep cs ov) st).1, x.length > cs := by
  induction ws with
  | nil => intro st h; exact h
  | cons w ws ih =>
    intro st h
    simp only [List.foldl_cons]
    apply ih
    simp only [chunkStep]
    by_cases hlen : (joinSp (st.2 ++ [w])).length > cs
    · simp only [hlen, if_pos]
      intro x hx
      rcases List.mem_append.mp hx with hx | hx
      · exact h x hx
      · rcases List.mem_singleton.mp hx with rfl
        exact hlen
    · simp only [hlen, if_neg, not_false_iff]
      exact h

/-! Section: Metadata dictionaries

Chunk metadata is a Python dict mapping string keys to string or int values
(`vector_store.py` lines 72-82).  A dict is represented as an association
list; lookup takes the first binding, and `base.update(upd)` is represented by
prepending `upd` so that its keys shadow `base`'s. -/

/-- A metadata value: Python `str` or `int`. -/
inductive MetaVal where
  | s (v : String)
  | i (v : Nat)
deriving DecidableEq, Repr

/-- A Python dict of metadata, as an association list with first-binding
lookup. -/
abbrev Dict := List (String × MetaVal)

/-- Dict lookup (`d[k]` / `d.get(k)`). -/
def dictGet (d : Dict) (k : String) : Option MetaVal :=
  (d.find? (fun p => p.1 == k)).map (fun p => p.2)

/-- Python `base.update(upd)`: bindings of `upd` shadow those of `base`. -/
def dictUpdate (base upd : Dict) : Dict :=
  upd ++ base

/-! Section: ChromaDB collection model

Modelled from the spec: the ChromaDB collection held by `VectorStore`
(`self.collection`) is external library state; §4.3 of the spec gives its
contract — `insert` is an id-keyed upsert, `query` returns up to `top_k`
nearest entries matching the metadata filter ordered by ascending distance,
`get`/`delete` select by an exact-match metadata filter.  Embedding distances
come from the external sentence-transformer model and are abstracted as an
oracle `dist : String → Entry → Int` (query text ↦ entry ↦ distance). -/

/-- One stored vector record: id, chunk text, metadata. -/
structure Entry where
  id : String
  document : String
  metadata : Dict
deriving DecidableEq, Repr

/-- The shared `documents` collection: a list of entries. -/
abbrev Collection := List Entry

/-- A ChromaDB `where` filter as used by `vector_store.py`: an exact-match
(`$eq`) condition on one string metadata field, or a `$and` conjunction. -/
inductive WhereFilter where
  | eq (key : String) (value : String)
  | and (f1 f2 : WhereFilter)
deriving DecidableEq, Repr

/-- Whether a metadata dict satisfies a `where` filter. -/
def WhereFilter.matches : WhereFilter → Dict → Bool
  | .eq k v, d => dictGet d k == some (.s v)
  | .and f g, d => f.matches d && g.matches d

/-- Model of `collection.add(ids=[e.id], documents=[e.document], metadatas=[e.metadata])`:
id-keyed upsert (spec §4.3: "adds or replaces (upsert) an entry; must be
idempotent on id"). -/
def addEntry (c : Collection) (e : Entry) : Collection :=
  if c.any (fun x => x.id == e.id) then
    c.map (fun x => if x.id == e.id then e else x)
  else
    c ++ [e]

/-- Model of `collection.get(where=f)`: all entries matching the filter. -/
def collectionGet (c : Collection) (f : WhereFilter) : List Entry :=
  c.filter (fun e => f.matches e.metadata)

/-- Model of `collection.delete(ids=ids)`: remove the entries with the given ids. -/
def collectionDelete (c : Collection) (ids : List String) : Collection :=
  c.filter (fun e => !(ids.contains e.id))

/-- Model of `collection.query(query_texts=[q], n_results=n, where=wf)`: the entries
matching the filter (all entries when no filter), ordered by ascending
distance to the query, truncated to `n`. -/
def collectionQuery (dist : String → Entry → Int) (c : Collection)
    (q : String) (n : Nat) (wf : Option WhereFilter) : List Entry :=
  let pool : List Entry := match wf with
    | some f => c.filter (fun e => f.matches e.metadata)
    | Option.none => c
  (pool.mergeSort (fun a b => dist q a ≤ dist q b)).take n

/-! Section: `VectorStore` operations (vector_store.py)

Each stateful method becomes a function from the collection to a result paired
with the new collection.  The `try/except` wrappers in the source catch
failures of the external client; the model has no such failures, so the
`except` branches are unreachable here. -/

/-- Result of `VectorStore.add_document`: the success dict
`{'success': True, 'vector_ids': …, 'num_chunks': …, 'message': …}` or the
failure dict `{'success': False, 'error': …}`. -/
inductive AddResult where
  | ok (vector_ids : List String) (num_chunks : Nat) (message : String)
  | err (error : String)
deriving DecidableEq, Repr

/-- The chunk id `f"{document_id}_chunk_{idx}"`. -/
def mkChunkId (document_id : PyVal) (idx : Nat) : String :=
  document_id.toStr ++ "_chunk_" ++ Nat.repr idx

/-- The metadata dict built for chunk `idx` of `n`, merged with the
caller-supplied extra metadata (`chunk_metadata.update(metadata)`). -/
def mkChunkMeta (user_id document_id : PyVal) (title : String)
    (idx n : Nat) (extra : Dict) : Dict :=
  dictUpdate
    [("user_id", .s user_id.toStr),
     ("document_id", .s document_id.toStr),
     ("title", .s title),
     ("chunk_index", .i idx),
     ("chunk_count", .i n)]
    extra

/-- The entries inserted by one `add_document` call, in loop order
(`for idx, chunk in enumerate(chunks)`). -/
def mkEntries (user_id document_id : PyVal) (title : String) (extra : Dict)
    (chunks : List String) : List Entry :=
  chunks.enum.map (fun p =>
    ⟨mkChunkId document_id p.1, p.2,
     mkChunkMeta user_id document_id title p.1 chunks.length extra⟩)

/-- Inserting a batch of entries one by one (`self.collection.add` inside the
loop). -/
def insertEntries (c : Collection) (es : List Entry) : Collection :=
  es.foldl addEntry c

/-- Model of `VectorStore.add_document(user_id, document_id, title, content, metadata)`:
chunk the content with the default parameters `(500, 50)`, reject when no
chunks result, otherwise insert one entry per chunk and report the created
vector ids. -/
def add_document (c : Collection) (user_id document_id : PyVal)
    (title content : String) (metadata : Dict) : AddResult × Collection :=
  let chunks := chunk_text content 500 50
  if chunks.isEmpty then
    (.err "No content to chunk", c)
  else
    let entries := mkEntries user_id document_id title metadata chunks
    (.ok (entries.map (fun e => e.id)) chunks.length
       ("Document added with " ++ Nat.repr chunks.length ++ " chunks"),
     insertEntries c entries)

/-- One formatted search result
(`{'id': …, 'document': …, 'metadata': …, 'distance': …}`). -/
structure SearchResult where
  id : String
  document : String
  metadata : Dict
  distance : Int
deriving DecidableEq, Repr

/-- Return shape of `VectorStore.search_documents`
(`{'success': True, 'results': …}`). -/
structure SearchOutcome where
  success : Bool
  results : List SearchResult
deriving DecidableEq, Repr

/-- Model of `VectorStore.search_documents(query, user_id, num_results, doc_id)`:
build the `where` filter from the truthiness of `user_id` and `doc_id`
(both → `$and`, one → a single `$eq`, neither → no filter), query the
collection, and format the matches. -/
def search_documents (dist : String → Entry → Int) (c : Collection)
    (query : String) (user_id : PyVal) (num_results : Nat) (doc_id : PyVal) :
    SearchOutcome :=
  let where_filter : Option WhereFilter :=
    if user_id.truthy && doc_id.truthy then
      some (.and (.eq "user_id" user_id.toStr) (.eq "document_id" doc_id.toStr))
    else if user_id.truthy then
      some (.eq "user_id" user_id.toStr)
    else if doc_id.truthy then
      some (.eq "document_id" doc_id.toStr)
    else
      Option.none
  let found := collectionQuery dist c query num_results where_filter
  { success := true,
    results := found.map (fun e => ⟨e.id, e.document, e.metadata, dist query e⟩) }

/-- Result of `VectorStore.delete_document_vectors`. -/
inductive DeleteResult where
  | ok (deleted_count : Nat) (message : String)
  | err (error : String)
deriving DecidableEq, Repr

/-- Model of `VectorStore.delete_document_vectors(document_id)`: fetch all entries
whose metadata `document_id` equals `str(document_id)` — with no user-id
condition — and delete them by id. -/
def delete_document_vectors (c : Collection) (document_id : PyVal) :
    DeleteResult × Collection :=
  let found := collectionGet c (.eq "document_id" document_id.toStr)
  let ids := found.map (fun e => e.id)
  if !ids.isEmpty then
    (.ok ids.length
       ("Deleted " ++ Nat.repr ids.length ++ " vectors"),
     collectionDelete c ids)
  else
    (.ok 0 "No vectors found", c)

/-! Section: Normalizer (`extract_meaningful_content`, processor.py lines 154-198) -/

/-- Helper for Python `s.split(sep)` with a one-character separator. -/
def splitOnCharAux (sep : Char) (cur : List Char) : List Char → List (List Char)
  | [] => [cur]
  | c :: rest =>
    if c = sep then cur :: splitOnCharAux sep [] rest
    else splitOnCharAux sep (cur ++ [c]) rest

/-- Python `s.split(sep)` for a one-character separator: keeps empty pieces. -/
def pySplitChar (s : String) (sep : Char) : List String :=
  (splitOnCharAux sep [] s.data).map List.asString

/-- Python `s.rstrip()`: drop trailing whitespace. -/
def pyRstrip (s : String) : String :=
  ((s.data.reverse.dropWhile Char.isWhitespace).reverse).asString

/-- Python `s.strip()`: drop leading and trailing whitespace. -/
def pyStrip (s : String) : String :=
  (((s.data.dropWhile Char.isWhitespace).reverse.dropWhile
      Char.isWhitespace).reverse).asString

/-- Python `pat in s` for a non-empty pattern. -/
def containsPat (pat : List Char) : List Char → Bool
  | [] => pat.isEmpty
  | c :: rest => pat.isPrefixOf (c :: rest) || containsPat pat rest

/-- Helper for Python `s.replace(pat, rep)`: left-to-right, non-overlapping.
`fuel` bounds the recursion; `s.length` is always enough. -/
def replacePatAux (pat rep : List Char) : Nat → List Char → List Char
  | 0, s => s
  | fuel + 1, s =>
    if pat.isPrefixOf s && !pat.isEmpty then
      rep ++ replacePatAux pat rep fuel (s.drop pat.length)
    else
      match s with
      | [] => []
      | c :: rest => c :: replacePatAux pat rep fuel rest

/-- Python `s.replace(pat, rep)` for a non-empty pattern. -/
def pyReplace (s pat rep : String) : String :=
  (replacePatAux pat.data rep.data s.data.length s.data).asString

/-- The `while '\n\n\n' in content:` loop of `extract_meaningful_content`:
each pass rewrites every triple newline to a double one; every pass with an
occurrence shortens the string, so `content.length` passes always suffice. -/
def collapseLoop : Nat → String → String
  | 0, s => s
  | fuel + 1, s =>
    if containsPat ['\n', '\n', '\n'] s.data then
      collapseLoop fuel (pyReplace s "\n\n\n" "\n\n")
    else s

/-- Helper for Python `s.split(pat)` with a multi-character pattern. -/
def splitPatAux (pat : List Char) : Nat → List Char → List (List Char)
  | 0, s => [s]
  | fuel + 1, s =>
    if pat.isPrefixOf s && !pat.isEmpty then
      [] :: splitPatAux pat fuel (s.drop pat.length)
    else
      match s with
      | [] => [[]]
      | c :: rest =>
        match splitPatAux pat fuel rest with
        | [] => [[c]]
        | h :: t => (c :: h) :: t

/-- Python `s.split(pat)` for a non-empty pattern. -/
def pySplitStr (s pat : String) : List String :=
  (splitPatAux pat.data s.data.length s.data).map List.asString

/-- Model of `extract_meaningful_content(raw_content, max_chars)`: rstrip each line,
collapse runs of blank lines, strip, drop degenerate paragraphs (single-line
and at most one character long), and fall back to `raw_content.strip()` when
the filtered content is blank. -/
def extract_meaningful_content (raw_content : String) (max_chars : Option Nat) :
    String :=
  let content1 := String.intercalate "\n"
    ((pySplitChar raw_content '\n').map pyRstrip)
  let content2 := collapseLoop content1.length content1
  let content3 := pyStrip content2
  let paragraphs :=
    ((pySplitStr content3 "\n\n").map pyStrip).filter (fun p => p != "")
  let filtered := paragraphs.filter (fun para =>
    if (pySplitChar para '\n').length > 1 then true
    else if para.length > 5 then true
    else if para.length > 1 then true
    else false)
  let content4 := String.intercalate "\n\n" filtered
  let content5 := if pyStrip content4 == "" then pyStrip raw_content else content4
  match max_chars with
  | some m => if m != 0 && content5.length > m then pyTake content5 m ++ "..." else content5
  | Option.none => content5

/-! Section: Answer composer (`RAGChatBot`, llm.py)

The chatbot state is its rolling chat history plus the provider configuration
resolved at startup.  An LLM provider HTTP client is an external collaborator:
it is modelled as an oracle that maps the request (the message list, or the
single prompt string for IBM) to either an answer string or an error message;
`Except.error` covers every failure the `try/except` blocks catch (client not
configured, auth failure, network failure, malformed response). -/

/-- One chat-history entry `{'role': …, 'content': …}`. -/
structure ChatMsg where
  role : String
  content : String
deriving DecidableEq, Repr

/-- The `RAGChatBot` state relevant to answer generation. -/
structure Bot where
  chat_history : List ChatMsg
  llm_available : Bool
  llm_provider : String
  model : String
deriving DecidableEq, Repr

/-- The answer dict returned by `generate_answer` and the per-provider
helpers. -/
structure AnswerResult where
  answer : String
  sources : List String
  has_context : Bool
  status : String
  provider : String
  model : Option String
deriving DecidableEq, Repr

/-- Python `llm_model or self.model` (falsy → default). -/
def pyOrStr (m : Option String) (dflt : String) : String :=
  match m with
  | some s => if s != "" then s else dflt
  | Option.none => dflt

/-- Python truthiness of an optional string. -/
def optTruthy (m : Option String) : Bool :=
  match m with
  | some s => s != ""
  | Option.none => false

/-- Python `s.startswith(pre)`. -/
def pyStartsWith (s pre : String) : Bool :=
  pre.data.isPrefixOf s.data

/-- The system message of `_generate_openai` / `_generate_ibm`. -/
def contextSystemPrompt (context : String) : String :=
  "You are a helpful assistant. Use the provided context to answer questions.\nIf the answer is not in the context, say so clearly.\n\nContext:\n"
    ++ context

/-- The system message of `_generate_perplexity` (note "accurately"). -/
def pplxSystemPrompt (context : String) : String :=
  "You are a helpful assistant. Use the provided context to answer questions accurately.\nIf the answer is not in the context, say so clearly.\n\nContext:\n"
    ++ context

/-- The message list `_generate_openai` sends: the system message, the last 10
chat-history entries (`self.chat_history[-10:]`), then the question. -/
def openaiMessages (bot : Bot) (question context : String) : List ChatMsg :=
  ⟨"system", contextSystemPrompt context⟩ ::
    (lastN 10 bot.chat_history ++ [⟨"user", question⟩])

/-- The message payload `_generate_perplexity` sends: system message and
question only — no chat history. -/
def pplxMessages (question context : String) : List ChatMsg :=
  [⟨"system", pplxSystemPrompt context⟩, ⟨"user", question⟩]

/-- The single prompt string `_generate_ibm` sends. -/
def ibmPrompt (question context : String) : String :=
  contextSystemPrompt context ++ "\n\nQuestion: " ++ question ++ "\nAnswer:"

/-- Model of `RAGChatBot._generate_openai`: call the provider; on success append the
turn to the chat history, on any caught failure return a `status='error'`
answer carrying the error message and a 500-character excerpt of the top
retrieved chunk. -/
def generateOpenai (api : List ChatMsg → Except String String) (bot : Bot)
    (question : String) (documents : List String) (context : String)
    (llm_model : Option String) : AnswerResult × Bot :=
  match api (openaiMessages bot question context) with
  | .ok answer =>
    ({ answer := answer, sources := documents.take 3,
       has_context := !documents.isEmpty, status := "success",
       provider := "openai", model := some (pyOrStr llm_model bot.model) },
     { bot with chat_history := bot.chat_history ++
         [⟨"user", question⟩, ⟨"assistant", answer⟩] })
  | .error error_msg =>
    ({ answer :=
         if !documents.isEmpty then
           "Unable to use OpenAI. Error: " ++ error_msg ++
             "\n\nHere's the relevant document content:\n" ++
             pyTake (documents.headD "") 500 ++ "..."
         else "Error: " ++ error_msg,
       sources := documents.take 3, has_context := !documents.isEmpty,
       status := "error", provider := "openai",
       model := some (pyOrStr llm_model bot.model) }, bot)

/-- Model of `RAGChatBot._generate_perplexity`: same shape as the OpenAI path, but the
payload contains no chat history. -/
def generatePerplexity (api : List ChatMsg → Except String String) (bot : Bot)
    (question : String) (documents : List String) (context : String)
    (llm_model : Option String) : AnswerResult × Bot :=
  match api (pplxMessages question context) with
  | .ok answer =>
    ({ answer := answer, sources := documents.take 3,
       has_context := !documents.isEmpty, status := "success",
       provider := "perplexity", model := some (pyOrStr llm_model bot.model) },
     { bot with chat_history := bot.chat_history ++
         [⟨"user", question⟩, ⟨"assistant", answer⟩] })
  | .error error_msg =>
    ({ answer :=
         if !documents.isEmpty then
           "Unable to use Perplexity. Error: " ++ error_msg ++
             "\n\nHere's the relevant document content:\n" ++
             pyTake (documents.headD "") 500 ++ "..."
         else "Error: " ++ error_msg,
       sources := documents.take 3, has_context := !documents.isEmpty,
       status := "error", provider := "perplexity",
       model := some (pyOrStr llm_model bot.model) }, bot)

/-- Model of `RAGChatBot._generate_ibm`. -/
def generateIbm (api : String → Except String String) (bot : Bot)
    (question : String) (documents : List String) (context : String)
    (llm_model : Option String) : AnswerResult × Bot :=
  match api (ibmPrompt question context) with
  | .ok answer =>
    ({ answer := answer, sources := documents.take 3,
       has_context := !documents.isEmpty, status := "success",
       provider := "ibm", model := some (pyOrStr llm_model bot.model) },
     { bot with chat_history := bot.chat_history ++
         [⟨"user", question⟩, ⟨"assistant", answer⟩] })
  | .error error_msg =>
    ({ answer :=
         if !documents.isEmpty then
           "Unable to use IBM Watson. Error: " ++ error_msg ++
             "\n\nHere's the relevant document content:\n" ++
             pyTake (documents.headD "") 500 ++ "..."
         else "Error: " ++ error_msg,
       sources := documents.take 3, has_context := !documents.isEmpty,
       status := "error", provider := "ibm",
       model := some (pyOrStr llm_model bot.model) }, bot)

/-- The provider selection of `generate_answer`: prefix mapping of the UI
model hint when truthy, else the provider configured at startup. -/
def resolveProvider (bot_provider : String) (llm_model : Option String) :
    String :=
  if optTruthy llm_model then
    let m := llm_model.getD ""
    if pyStartsWith m "openai" then "openai"
    else if pyStartsWith m "perplexity" then "perplexity"
    else if pyStartsWith m "ibm" then "ibm"
    else if m == "document-search" then "document-search"
    else bot_provider
  else bot_provider

/-- Model of `RAGChatBot.generate_answer(question, documents, user_id, llm_model)`:
build the joined context, fall back when no LLM is configured, resolve the
provider and dispatch; unresolved providers get the document-search result.
Every path returns a well-formed answer dict.  (The `user_id` argument is
accepted and unused, as in the source.) -/
def generate_answer (oai pplx : List ChatMsg → Except String String)
    (ibm : String → Except String String) (bot : Bot) (question : String)
    (documents : List String) (_user_id : Option String)
    (llm_model : Option String) : AnswerResult × Bot :=
  let context :=
    if !documents.isEmpty then String.intercalate "\n\n---\n\n" documents
    else ""
  if !bot.llm_available then
    ({ answer :=
         if context != "" then
           "No LLM configured. Context from documents:\n" ++ context
         else "No documents found.",
       sources := documents.take 3, has_context := !documents.isEmpty,
       status := "fallback", provider := "fallback", model := llm_model }, bot)
  else
    let provider := resolveProvider bot.llm_provider llm_model
    if provider == "openai" then
      generateOpenai oai bot question documents context llm_model
    else if provider == "perplexity" then
      generatePerplexity pplx bot question documents context llm_model
    else if provider == "ibm" then
      generateIbm ibm bot question documents context llm_model
    else
      ({ answer :=
           if !documents.isEmpty then
             "Document content:\n\n" ++ pyTake (documents.headD "") 500 ++ "..."
           else "No documents found",
         sources := documents.take 3, has_context := !documents.isEmpty,
         status := "document-search", provider := "document-search",
         model := llm_model }, bot)

/-! Section: Claim C5 — chunk sizes

The loop in `chunk_text` emits the running chunk only once its joined length
already *exceeds* `chunk_size`, so every chunk except possibly the final
flushed one is strictly longer than `chunk_size` — the opposite bound of the
one claimed. -/

/-- C5 counterexample: chunking `"aa bb cc"` with `chunk_size = 3`,
`overlap = 0` yields two chunks, and the first (non-final) chunk `"aa bb"`
has length `5 > 3`, refuting "every chunk except possibly the final one has
length at most `chunk_size`". -/
theorem c5_counterexample :
    0 + 1 < (chunk_text "aa bb cc" 3 0).length ∧
    ¬ ((chunk_text "aa bb cc" 3 0).getD 0 "").length ≤ 3 := by
  decide

/-- C5 (amended): every chunk except possibly the final one has
joined-with-spaces length strictly *greater* than `chunk_size` (a chunk is
emitted only once it exceeds the limit). -/
theorem c5_nonfinal_chunk_exceeds_chunk_size (text : String) (cs ov i : Nat)
    (hi : i + 1 < (chunk_text text cs ov).length) :
    cs < ((chunk_text text cs ov).getD i "").length := by
  have hall : ∀ x ∈ ((pyWords text).foldl (chunkStep cs ov) ([], [])).1,
      x.length > cs :=
    foldl_chunkStep_all_long cs ov (pyWords text) ([], [])
      (by intro x hx; cases hx)
  have hmem : (chunk_text text cs ov).getD i "" ∈
      ((pyWords text).foldl (chunkStep cs ov) ([], [])).1 := by
    unfold chunk_text at hi ⊢
    set st := (pyWords text).foldl (chunkStep cs ov) ([], []) with hst
    by_cases hb : st.2.isEmpty = true
    · rw [if_pos hb] at hi ⊢
      have hlt : i < st.1.length := by omega
      rw [List.getD_eq_getElem _ _ hlt]
      exact List.getElem_mem hlt
    · rw [if_neg hb] at hi ⊢
      rw [List.length_append, List.length_singleton] at hi
      have hlt : i < st.1.length := by omega
      have hlt2 : i < (st.1 ++ [joinSp st.2]).length := by
        rw [List.length_append, List.length_singleton]; omega
      rw [List.getD_eq_getElem _ _ hlt2, List.getElem_append_left hlt]
      exact List.getElem_mem hlt
  exact hall _ hmem

/-- C5 witness: at `text = "aa bb cc"`, `chunk_size = 3`, `overlap = 0`,
chunk `0` is non-final and longer than `chunk_size`. -/
theorem c5_witness :
    0 + 1 < (chunk_text "aa bb cc" 3 0).length ∧
    3 < ((chunk_text "aa bb cc" 3 0).getD 0 "").length :=
  ⟨by decide, c5_nonfinal_chunk_exceeds_chunk_size "aa bb cc" 3 0 0 (by decide)⟩

/-! Section: Claim C7 — zero-chunk rejection -/

/-- C7: when the content chunks to zero chunks, `add_document` returns the
failure dict `{'success': False, 'error': 'No content to chunk'}` and leaves
the collection untouched — no insertion happens before the rejection. -/
theorem c7_zero_chunks_rejected_without_side_effect (c : Collection)
    (user_id document_id : PyVal) (title content : String) (metadata : Dict)
    (h : chunk_text content 500 50 = []) :
    add_document c user_id document_id title content metadata =
      (.err "No content to chunk", c) := by
  unfold add_document
  rw [h]
  rfl

/-- C7 witness: whitespace-only content produces zero chunks and is rejected
with the collection unchanged. -/
theorem c7_witness :
    chunk_text "  " 500 50 = [] ∧
    add_document [] (.int 1) (.int 7) "t" "  " [] =
      (.err "No content to chunk", []) :=
  ⟨by decide,
   c7_zero_chunks_rejected_without_side_effect [] (.int 1) (.int 7) "t" "  " []
     (by decide)⟩

/-! Section: Claim C9 — the normalizer on non-empty input -/

/-- C9 counterexample: `" "` is a non-empty input, yet
`extract_meaningful_content` returns the empty string for it — the fallback
is `raw_content.strip()`, which is empty for whitespace-only input. -/
theorem c9_counterexample :
    extract_meaningful_content " " Option.none = "" ∧ " " ≠ "" := by
  decide

theorem final_fallback_nonempty (raw c4 : String) (h : pyStrip raw ≠ "") :
    (if pyStrip c4 == "" then pyStrip raw else c4) ≠ "" := by
  split
  · exact h
  · rename_i hc
    intro he
    subst he
    exact hc (by decide)

/-- C9 (amended): for every input with at least one non-whitespace character
(`raw.strip()` non-empty), `extract_meaningful_content` returns a non-empty
string; whitespace-only (though non-empty) input yields the empty string. -/
theorem c9_nonblank_input_gives_nonempty_output (raw : String)
    (h : pyStrip raw ≠ "") :
    extract_meaningful_content raw Option.none ≠ "" := by
  unfold extract_meaningful_content
  exact final_fallback_nonempty raw _ h

/-- C9 witness: at `raw = "some actual text"` the normalizer output is
non-empty. -/
theorem c9_witness :
    pyStrip "some actual text" ≠ "" ∧
    extract_meaningful_content "some actual text" Option.none ≠ "" :=
  ⟨by decide, c9_nonblank_input_gives_nonempty_output "some actual text" (by decide)⟩

/-! Section: Claim C10 — falsy `user_id` disables filtering -/

/-- C10: with a falsy `user_id` (`None`, `0`, or `""`) and a falsy / absent
`doc_id`, `search_documents` builds no `where` filter at all: the similarity
query ranks and returns entries from the whole shared collection, across all
users. -/
theorem c10_falsy_user_id_searches_unfiltered (dist : String → Entry → Int)
    (c : Collection) (query : String) (user_id doc_id : PyVal) (n : Nat)
    (hu : user_id.truthy = false) (hd : doc_id.truthy = false) :
    search_documents dist c query user_id n doc_id =
      { success := true,
        results :=
          ((c.mergeSort (fun a b => dist query a ≤ dist query b)).take n).map
            (fun e => ⟨e.id, e.document, e.metadata, dist query e⟩) } := by
  unfold search_documents collectionQuery
  simp only [hu, hd, Bool.false_and, Bool.false_eq_true, if_false]

/-- C10 witness: querying with `user_id = 0` over a collection holding
chunks of users `"1"` and `"2"` runs unfiltered. -/
theorem c10_witness :
    search_documents (fun _ _ => 0)
        ([⟨"7_chunk_0", "alpha", [("user_id", .s "1"), ("document_id", .s "7")]⟩,
          ⟨"9_chunk_0", "beta", [("user_id", .s "2"), ("document_id", .s "9")]⟩] :
            Collection)
        "q" (.int 0) 5 .none =
      { success := true,
        results :=
          ((([⟨"7_chunk_0", "alpha", [("user_id", .s "1"), ("document_id", .s "7")]⟩,
              ⟨"9_chunk_0", "beta", [("user_id", .s "2"), ("document_id", .s "9")]⟩] :
                Collection).mergeSort
              (fun _ _ => decide ((0 : Int) ≤ (0 : Int)))).take 5).map
            (fun e => ⟨e.id, e.document, e.metadata, 0⟩) } :=
  c10_falsy_user_id_searches_unfiltered (fun _ _ => 0) _ "q" (.int 0) .none 5
    (by decide) (by decide)

/-! Section: Claim C2 — the bulk delete carries no user-id filter -/

/-- C2 counterexample: one `delete_document_vectors` call with document id
`"7"` removes the chunks of *two different users* (`user_id` `"1"` and
`"2"`): the operation filters by document id only and carries no user-id
condition, so it cannot be limited to any single calling user's entries. -/
theorem c2_counterexample :
    (delete_document_vectors
        [⟨"7_chunk_0", "alpha", [("user_id", .s "1"), ("document_id", .s "7")]⟩,
         ⟨"7_chunk_0", "beta", [("user_id", .s "2"), ("document_id", .s "7")]⟩]
        (.str "7")).2 = [] ∧
    (MetaVal.s "1") ≠ (MetaVal.s "2") := by
  decide

/-- C2 (amended): `delete_document_vectors` filters by document id only —
assuming the collection's ids are unique (the index invariant), it removes
exactly the entries whose metadata `document_id` equals `str(document_id)`,
whatever their `user_id`. -/
theorem c2_delete_filters_by_document_id_only (c : Collection)
    (document_id : PyVal) (hids : (c.map (fun e => e.id)).Nodup) :
    (delete_document_vectors c document_id).2 =
      c.filter (fun e =>
        !((WhereFilter.eq "document_id" document_id.toStr).matches
            e.metadata)) := by
  have hq : ∀ e ∈ c,
      ((c.filter (fun x =>
          (WhereFilter.eq "document_id" document_id.toStr).matches
            x.metadata)).map (fun x => x.id)).contains e.id =
        (WhereFilter.eq "document_id" document_id.toStr).matches e.metadata := by
    intro e he
    show List.elem e.id _ = _
    rw [List.elem_eq_mem]
    cases hpe : (WhereFilter.eq "document_id" document_id.toStr).matches
        e.metadata with
    | false =>
      apply decide_eq_false
      intro hmem
      rcases List.mem_map.mp hmem with ⟨f, hf, hfe⟩
      have hfc : f ∈ c := List.mem_of_mem_filter hf
      have hfeq : f = e := List.inj_on_of_nodup_map hids hfc he hfe
      have hpf := List.of_mem_filter hf
      rw [hfeq, hpe] at hpf
      exact Bool.false_ne_true hpf
    | true =>
      apply decide_eq_true
      exact List.mem_map.mpr ⟨e, List.mem_filter.mpr ⟨he, hpe⟩, rfl⟩
  unfold delete_document_vectors collectionGet collectionDelete
  by_cases hfound : c.filter (fun x =>
      (WhereFilter.eq "document_id" document_id.toStr).matches x.metadata) = []
  · simp only [hfound, List.map_nil, List.isEmpty_nil, Bool.not_true,
      Bool.false_eq_true, if_false]
    symm
    apply List.filter_eq_self.mpr
    intro e he
    have hne := List.filter_eq_nil_iff.mp hfound e he
    simp only [Bool.not_eq_true']
    exact Bool.eq_false_iff.mpr hne
  · have hne : ((c.filter (fun x =>
        (WhereFilter.eq "document_id" document_id.toStr).matches
          x.metadata)).map (fun x => x.id)).isEmpty = false := by
      by_cases hm : ((c.filter (fun x =>
          (WhereFilter.eq "document_id" document_id.toStr).matches
            x.metadata)).map (fun x => x.id)).isEmpty = true
      · exact absurd (List.map_eq_nil_iff.mp (List.isEmpty_iff.mp hm)) hfound
      · exact Bool.eq_false_iff.mpr hm
    simp only [hne, Bool.not_false, if_true]
    apply List.filter_congr
    intro e he
    rw [hq e he]

/-- C2 witness: on a two-user collection with unique ids, the delete removes
exactly the document-id matches of both users. -/
theorem c2_witness :
    (delete_document_vectors
        [⟨"7_chunk_0", "alpha", [("user_id", .s "1"), ("document_id", .s "7")]⟩,
         ⟨"9_chunk_0", "beta", [("user_id", .s "2"), ("document_id", .s "7")]⟩,
         ⟨"5_chunk_0", "gamma",
           [("user_id", .s "2"), ("document_id", .s "5")]⟩]
        (.str "7")).2 =
      [⟨"7_chunk_0", "alpha", [("user_id", .s "1"), ("document_id", .s "7")]⟩,
       ⟨"9_chunk_0", "beta", [("user_id", .s "2"), ("document_id", .s "7")]⟩,
       ⟨"5_chunk_0", "gamma",
         [("user_id", .s "2"), ("document_id", .s "5")]⟩].filter (fun e =>
        !((WhereFilter.eq "document_id" (PyVal.str "7").toStr).matches
            e.metadata)) :=
  c2_delete_filters_by_document_id_only _ (.str "7") (by decide)

/-! Section: Claim C4 — provider failures never escape `generate_answer` -/

/-- C4: when an LLM provider is available and resolves to one of the three
real providers but every provider call fails, `generate_answer` still returns
a well-formed answer object (it is a total function of its oracles): the
status is `"error"`, the chat history is untouched, and the answer text is
the provider's error message concatenated (when any chunks were retrieved)
with the first 500 characters of the top retrieved chunk. -/
theorem c4_provider_failure_downgraded_to_error_answer
    (oai pplx : List ChatMsg → Except String String)
    (ibm : String → Except String String) (bot : Bot) (question : String)
    (documents : List String) (uid llm_model : Option String)
    (e1 e2 e3 : String) (hav : bot.llm_available = true)
    (h1 : ∀ ms, oai ms = .error e1) (h2 : ∀ ms, pplx ms = .error e2)
    (h3 : ∀ p, ibm p = .error e3)
    (hprov : resolveProvider bot.llm_provider llm_model = "openai" ∨
             resolveProvider bot.llm_provider llm_model = "perplexity" ∨
             resolveProvider bot.llm_provider llm_model = "ibm") :
    (generate_answer oai pplx ibm bot question documents uid llm_model).1.status
        = "error" ∧
    (generate_answer oai pplx ibm bot question documents uid llm_model).2
        = bot ∧
    ∃ pre emsg, (emsg = e1 ∨ emsg = e2 ∨ emsg = e3) ∧
      (if documents.isEmpty then
        (generate_answer oai pplx ibm bot question documents uid
            llm_model).1.answer = pre ++ emsg
       else
        (generate_answer oai pplx ibm bot question documents uid
            llm_model).1.answer =
          pre ++ emsg ++ "\n\nHere's the relevant document content:\n" ++
            pyTake (documents.headD "") 500 ++ "...") := by
  unfold generate_answer
  simp only [hav, Bool.not_true, Bool.false_eq_true, if_false]
  rcases hprov with hp | hp | hp <;> rw [hp]
  · simp only [show (("openai" : String) == "openai") = true from rfl, if_true]
    unfold generateOpenai
    rw [h1]
    cases hd : documents.isEmpty with
    | true =>
      refine ⟨rfl, rfl, "Error: ", e1, Or.inl rfl, ?_⟩
      simp only [hd, Bool.not_true, Bool.false_eq_true, if_false, if_true]
    | false =>
      refine ⟨rfl, rfl, "Unable to use OpenAI. Error: ", e1, Or.inl rfl, ?_⟩
      simp only [hd, Bool.not_false, if_true, Bool.false_eq_true, if_false,
        String.append_assoc]
  · simp only [show (("perplexity" : String) == "openai") = false from rfl,
      Bool.false_eq_true, if_false,
      show (("perplexity" : String) == "perplexity") = true from rfl, if_true]
    unfold generatePerplexity
    rw [h2]
    cases hd : documents.isEmpty with
    | true =>
      refine ⟨rfl, rfl, "Error: ", e2, Or.inr (Or.inl rfl), ?_⟩
      simp only [hd, Bool.not_true, Bool.false_eq_true, if_false, if_true]
    | false =>
      refine ⟨rfl, rfl, "Unable to use Perplexity. Error: ", e2,
        Or.inr (Or.inl rfl), ?_⟩
      simp only [hd, Bool.not_false, if_true, Bool.false_eq_true, if_false,
        String.append_assoc]
  · simp only [show (("ibm" : String) == "openai") = false from rfl,
      show (("ibm" : String) == "perplexity") = false from rfl,
      Bool.false_eq_true, if_false,
      show (("ibm" : String) == "ibm") = true from rfl, if_true]
    unfold generateIbm
    rw [h3]
    cases hd : documents.isEmpty with
    | true =>
      refine ⟨rfl, rfl, "Error: ", e3, Or.inr (Or.inr rfl), ?_⟩
      simp only [hd, Bool.not_true, Bool.false_eq_true, if_false, if_true]
    | false =>
      refine ⟨rfl, rfl, "Unable to use IBM Watson. Error: ", e3,
        Or.inr (Or.inr rfl), ?_⟩
      simp only [hd, Bool.not_false, if_true, Bool.false_eq_true, if_false,
        String.append_assoc]

/-- C4 witness: a bot configured for OpenAI whose provider always fails with
`"boom"` returns an error answer and keeps its history. -/
theorem c4_witness :
    (⟨[], true, "openai", "gpt-3.5-turbo"⟩ : Bot).llm_available = true ∧
    resolveProvider (⟨[], true, "openai", "gpt-3.5-turbo"⟩ : Bot).llm_provider
        Option.none = "openai" ∧
    ((generate_answer (fun _ => .error "boom") (fun _ => .error "boom")
        (fun _ => .error "boom") ⟨[], true, "openai", "gpt-3.5-turbo"⟩
        "q" ["top chunk text"] Option.none Option.none).1.status = "error" ∧
     (generate_answer (fun _ => .error "boom") (fun _ => .error "boom")
        (fun _ => .error "boom") ⟨[], true, "openai", "gpt-3.5-turbo"⟩
        "q" ["top chunk text"] Option.none Option.none).2 =
       ⟨[], true, "openai", "gpt-3.5-turbo"⟩ ∧
     ∃ pre emsg, (emsg = "boom" ∨ emsg = "boom" ∨ emsg = "boom") ∧
      (if (["top chunk text"] : List String).isEmpty then
        (generate_answer (fun _ => .error "boom") (fun _ => .error "boom")
            (fun _ => .error "boom") ⟨[], true, "openai", "gpt-3.5-turbo"⟩
            "q" ["top chunk text"] Option.none Option.none).1.answer =
          pre ++ emsg
       else
        (generate_answer (fun _ => .error "boom") (fun _ => .error "boom")
            (fun _ => .error "boom") ⟨[], true, "openai", "gpt-3.5-turbo"⟩
            "q" ["top chunk text"] Option.none Option.none).1.answer =
          pre ++ emsg ++ "\n\nHere's the relevant document content:\n" ++
            pyTake ((["top chunk text"] : List String).headD "") 500 ++
            "...")) :=
  ⟨rfl, rfl,
   c4_provider_failure_downgraded_to_error_answer
     (fun _ => .error "boom") (fun _ => .error "boom") (fun _ => .error "boom")
     ⟨[], true, "openai", "gpt-3.5-turbo"⟩ "q" ["top chunk text"]
     Option.none Option.none "boom" "boom" "boom" rfl
     (fun _ => rfl) (fun _ => rfl) (fun _ => rfl) (Or.inl rfl)⟩

/-! Section: Claim C8 — chat-history protocol -/

/-- C8: on a successful provider call the turn is appended to the rolling
history as the `user` entry then the `assistant` entry, in that order, for
both the OpenAI and the Perplexity paths; the OpenAI call sends the system
message, a suffix of at most 10 history entries, then the question; the
Perplexity call sends no history entries at all (which is also at most 10). -/
theorem c8_history_appended_and_at_most_ten_sent (bot : Bot)
    (question context : String) (documents : List String)
    (llm_model : Option String)
    (oai pplx : List ChatMsg → Except String String) (a1 a2 : String)
    (h1 : oai (openaiMessages bot question context) = .ok a1)
    (h2 : pplx (pplxMessages question context) = .ok a2) :
    ((generateOpenai oai bot question documents context llm_model).2.chat_history
        = bot.chat_history ++ [⟨"user", question⟩, ⟨"assistant", a1⟩]) ∧
    ((generatePerplexity pplx bot question documents context
        llm_model).2.chat_history
        = bot.chat_history ++ [⟨"user", question⟩, ⟨"assistant", a2⟩]) ∧
    (∃ h : List ChatMsg,
      openaiMessages bot question context =
        ⟨"system", contextSystemPrompt context⟩ :: (h ++ [⟨"user", question⟩]) ∧
      h.length ≤ 10 ∧ List.IsSuffix h bot.chat_history) ∧
    (pplxMessages question context =
      [⟨"system", pplxSystemPrompt context⟩, ⟨"user", question⟩]) := by
  refine ⟨?_, ?_, ?_, rfl⟩
  · unfold generateOpenai
    rw [h1]
  · unfold generatePerplexity
    rw [h2]
  · refine ⟨lastN 10 bot.chat_history, rfl, ?_, ?_⟩
    · unfold lastN
      rw [List.length_drop]
      omega
    · exact List.drop_suffix _ _

/-- C8 witness: with a 12-entry history and a provider answering `"fine"`,
the history gains the user/assistant pair and the OpenAI payload contains
exactly the last 10 history entries. -/
theorem c8_witness :
    ((fun _ : List ChatMsg => (Except.ok "fine" : Except String String))
        (openaiMessages
          ⟨(List.range 12).map (fun i => ⟨"user", Nat.repr i⟩), true, "openai",
            "m"⟩ "q" "ctx") = Except.ok "fine") ∧
    ((generateOpenai
        (fun _ : List ChatMsg => (Except.ok "fine" : Except String String))
        ⟨(List.range 12).map (fun i => ⟨"user", Nat.repr i⟩), true, "openai",
          "m"⟩ "q" [] "ctx" Option.none).2.chat_history =
      ((List.range 12).map (fun i => (⟨"user", Nat.repr i⟩ : ChatMsg))) ++
        [⟨"user", "q"⟩, ⟨"assistant", "fine"⟩]) :=
  ⟨rfl,
   (c8_history_appended_and_at_most_ten_sent
      ⟨(List.range 12).map (fun i => ⟨"user", Nat.repr i⟩), true, "openai", "m"⟩
      "q" "ctx" [] Option.none
      (fun _ : List ChatMsg => (Except.ok "fine" : Except String String))
      (fun _ : List ChatMsg => (Except.ok "fine" : Except String String))
      "fine" "fine" rfl rfl).1⟩

/-! Section: Claim C1 — user isolation of filtered search -/

theorem mem_addEntry {c : Collection} {x e : Entry} (h : x ∈ addEntry c e) :
    x ∈ c ∨ x = e := by
  unfold addEntry at h
  split at h
  · rcases List.mem_map.mp h with ⟨y, hy, hxy⟩
    by_cases hid : (y.id == e.id) = true
    · rw [if_pos hid] at hxy
      exact Or.inr hxy.symm
    · rw [if_neg hid] at hxy
      exact Or.inl (hxy ▸ hy)
  · rcases List.mem_append.mp h with h | h
    · exact Or.inl h
    · exact Or.inr (List.mem_singleton.mp h)

theorem mem_insertEntries {es : List Entry} :
    ∀ {c : Collection} {x : Entry}, x ∈ insertEntries c es → x ∈ c ∨ x ∈ es := by
  induction es with
  | nil => intro c x h; exact Or.inl h
  | cons e es ih =>
    intro c x h
    rcases ih h with h' | h'
    · rcases mem_addEntry h' with h'' | h''
      · exact Or.inl h''
      · exact Or.inr (h'' ▸ List.mem_cons_self e es)
    · exact Or.inr (List.mem_cons_of_mem e h')

theorem dictGet_mkChunkMeta_user (u d : PyVal) (t : String) (i n : Nat)
    (extra : Dict) (hx : dictGet extra "user_id" = Option.none) :
    dictGet (mkChunkMeta u d t i n extra) "user_id" = some (.s u.toStr) := by
  unfold mkChunkMeta dictUpdate dictGet
  unfold dictGet at hx
  have hfx : extra.find? (fun p => p.1 == "user_id") = Option.none :=
    Option.map_eq_none'.mp hx
  rw [List.find?_append, hfx]
  rfl

theorem mem_mkEntries_user {u d : PyVal} {t : String} {extra : Dict}
    {chunks : List String} {e : Entry}
    (hx : dictGet extra "user_id" = Option.none)
    (he : e ∈ mkEntries u d t extra chunks) :
    dictGet e.metadata "user_id" = some (.s u.toStr) := by
  unfold mkEntries at he
  rcases List.mem_map.mp he with ⟨p, _, rfl⟩
  exact dictGet_mkChunkMeta_user u d t p.1 chunks.length extra hx

theorem mem_collectionQuery_filter {dist : String → Entry → Int}
    {c : Collection} {q : String} {n : Nat} {f : WhereFilter} {e : Entry}
    (h : e ∈ collectionQuery dist c q n (some f)) :
    e ∈ c ∧ f.matches e.metadata = true := by
  have h' : e ∈ ((c.filter (fun x => f.matches x.metadata)).mergeSort
      (fun a b => decide (dist q a ≤ dist q b))).take n := h
  have h1 := List.take_subset _ _ h'
  have h2 := List.mem_mergeSort.mp h1
  exact ⟨(List.mem_filter.mp h2).1, (List.mem_filter.mp h2).2⟩

theorem search_documents_user_only (dist : String → Entry → Int)
    (c : Collection) (q : String) (B : PyVal) (n : Nat)
    (hB : B.truthy = true) :
    search_documents dist c q B n PyVal.none =
      { success := true,
        results := (collectionQuery dist c q n
            (some (.eq "user_id" B.toStr))).map
          (fun e => ⟨e.id, e.document, e.metadata, dist q e⟩) } := by
  unfold search_documents
  simp only [hB, show PyVal.truthy PyVal.none = false from rfl, Bool.and_false,
    Bool.false_eq_true, if_false, if_true]

/-- C1: after ingesting a document for user `A` (whose extra metadata does
not override the `user_id` key), a search filtered by a different, truthy
user `B` returns only chunks whose metadata `user_id` is `str(B)` — never
`str(A)` — while every chunk the ingestion added carries `user_id =
str(A)`. -/
theorem c1_user_isolation (dist : String → Entry → Int) (c : Collection)
    (query : String) (A B document_id : PyVal) (title content : String)
    (extra : Dict) (n : Nat) (hB : B.truthy = true)
    (hAB : A.toStr ≠ B.toStr)
    (hextra : dictGet extra "user_id" = Option.none) :
    (∀ r ∈ (search_documents dist
        (add_document c A document_id title content extra).2 query B n
        PyVal.none).results,
      dictGet r.metadata "user_id" = some (.s B.toStr) ∧
      dictGet r.metadata "user_id" ≠ some (.s A.toStr)) ∧
    (∀ e ∈ (add_document c A document_id title content extra).2, e ∉ c →
      dictGet e.metadata "user_id" = some (.s A.toStr)) := by
  constructor
  · intro r hr
    rw [search_documents_user_only dist _ query B n hB] at hr
    rcases List.mem_map.mp hr with ⟨e, he, rfl⟩
    have hm := (mem_collectionQuery_filter he).2
    unfold WhereFilter.matches at hm
    have heq : dictGet e.metadata "user_id" = some (.s B.toStr) :=
      eq_of_beq hm
    refine ⟨heq, ?_⟩
    rw [heq]
    intro hcontra
    simp only [Option.some.injEq, MetaVal.s.injEq] at hcontra
    exact hAB hcontra.symm
  · intro e he hnc
    unfold add_document at he
    by_cases hch : (chunk_text content 500 50).isEmpty = true
    · simp only [hch, if_true] at he
      exact absurd he hnc
    · have hch' : (chunk_text content 500 50).isEmpty = false :=
        Bool.eq_false_iff.mpr hch
      simp only [hch', Bool.false_eq_true, if_false] at he
      rcases mem_insertEntries he with h | h
      · exact absurd h hnc
      · exact mem_mkEntries_user hextra h

/-- C1 witness: user `1` ingests a document; a search filtered by user `2`
satisfies the isolation properties. -/
theorem c1_witness :
    (PyVal.int 2).truthy = true ∧
    (PyVal.int 1).toStr ≠ (PyVal.int 2).toStr ∧
    ((∀ r ∈ (search_documents (fun _ _ => 0)
        (add_document [] (.int 1) (.int 7) "t" "hello world" []).2 "q"
        (.int 2) 5 PyVal.none).results,
      dictGet r.metadata "user_id" = some (.s (PyVal.int 2).toStr) ∧
      dictGet r.metadata "user_id" ≠ some (.s (PyVal.int 1).toStr)) ∧
    (∀ e ∈ (add_document [] (.int 1) (.int 7) "t" "hello world" []).2,
      e ∉ ([] : Collection) →
      dictGet e.metadata "user_id" = some (.s (PyVal.int 1).toStr))) :=
  ⟨by decide, by decide,
   c1_user_isolation (fun _ _ => 0) [] "q" (.int 1) (.int 2) (.int 7) "t"
     "hello world" [] 5 (by decide) (by decide) rfl⟩

/-! Section: Claim C6 — overlap carry-over between consecutive chunks -/

theorem lastN_ne_nil {k : Nat} (hk : 1 ≤ k) {α : Type} {l : List α}
    (hl : l ≠ []) : lastN k l ≠ [] := by
  unfold lastN
  intro h
  have hlen := congrArg List.length h
  rw [List.length_drop, List.length_nil] at hlen
  have : l.length ≠ 0 := fun h0 => hl (List.length_eq_zero.mp h0)
  omega

theorem chunkStepT_inv_step (cs ov k : Nat)
    (hko : (if ov != 0 then max 1 (ov / 5) else 0) = k) (hk : 1 ≤ k)
    (st : List (List String) × List String) (w : String)
    (h1 : ∀ t ∈ st.1, t ≠ [])
    (h2 : List.Chain' (fun w1 w2 => List.IsPrefix (lastN k w1) w2) st.1)
    (h3 : ∀ last ∈ st.1.getLast?, ∃ ext, st.2 = lastN k last ++ ext) :
    (∀ t ∈ (chunkStepT cs ov st w).1, t ≠ []) ∧
    List.Chain' (fun w1 w2 => List.IsPrefix (lastN k w1) w2)
      (chunkStepT cs ov st w).1 ∧
    (∀ last ∈ (chunkStepT cs ov st w).1.getLast?,
      ∃ ext, (chunkStepT cs ov st w).2 = lastN k last ++ ext) := by
  unfold chunkStepT
  by_cases hlen : (joinSp (st.2 ++ [w])).length > cs
  · simp only [hlen, if_true, hko, if_pos (by omega : 0 < k)]
    refine ⟨?_, ?_, ?_⟩
    · intro t ht
      rcases List.mem_append.mp ht with ht | ht
      · exact h1 t ht
      · rcases List.mem_singleton.mp ht with rfl
        simp
    · apply List.chain'_append.mpr
      refine ⟨h2, List.chain'_singleton _, ?_⟩
      intro x hx y hy
      have hyb : y = st.2 ++ [w] := by
        have := hy
        simp only [List.head?_cons, Option.mem_some_iff] at this
        exact this.symm
      rcases h3 x hx with ⟨ext, hext⟩
      refine hyb ▸ ⟨ext ++ [w], ?_⟩
      rw [hext, List.append_assoc]
    · intro last hlast
      rw [List.getLast?_concat] at hlast
      rcases Option.mem_some_iff.mp hlast with rfl
      exact ⟨[], (List.append_nil _).symm⟩
  · simp only [hlen, if_false]
    refine ⟨h1, h2, ?_⟩
    intro last hlast
    rcases h3 last hlast with ⟨ext, hext⟩
    exact ⟨ext ++ [w], by rw [hext, List.append_assoc]⟩

theorem chunkStepT_fold_inv (cs ov k : Nat)
    (hko : (if ov != 0 then max 1 (ov / 5) else 0) = k) (hk : 1 ≤ k)
    (ws : List String) :
    ∀ st : List (List String) × List String,
      (∀ t ∈ st.1, t ≠ []) →
      List.Chain' (fun w1 w2 => List.IsPrefix (lastN k w1) w2) st.1 →
      (∀ last ∈ st.1.getLast?, ∃ ext, st.2 = lastN k last ++ ext) →
      (∀ t ∈ (ws.foldl (chunkStepT cs ov) st).1, t ≠ []) ∧
      List.Chain' (fun w1 w2 => List.IsPrefix (lastN k w1) w2)
        (ws.foldl (chunkStepT cs ov) st).1 ∧
      (∀ last ∈ (ws.foldl (chunkStepT cs ov) st).1.getLast?,
        ∃ ext, (ws.foldl (chunkStepT cs ov) st).2 = lastN k last ++ ext) := by
  induction ws with
  | nil => intro st h1 h2 h3; exact ⟨h1, h2, h3⟩
  | cons w ws ih =>
    intro st h1 h2 h3
    obtain ⟨g1, g2, g3⟩ := chunkStepT_inv_step cs ov k hko hk st w h1 h2 h3
    exact ih (chunkStepT cs ov st w) g1 g2 g3

theorem chunkTokens_props (words : List String) (cs ov : Nat) (hov : ov ≠ 0) :
    (∀ t ∈ chunkTokens words cs ov, t ≠ []) ∧
    List.Chain' (fun w1 w2 => List.IsPrefix (lastN (max 1 (ov / 5)) w1) w2)
      (chunkTokens words cs ov) := by
  have hk : 1 ≤ max 1 (ov / 5) := le_max_left 1 _
  have hko : (if ov != 0 then max 1 (ov / 5) else 0) = max 1 (ov / 5) := by
    simp [hov]
  obtain ⟨H1, H2, H3⟩ := chunkStepT_fold_inv cs ov (max 1 (ov / 5)) hko hk
    words ([], []) (by intro t ht; cases ht) List.chain'_nil
    (by intro last hlast; cases hlast)
  unfold chunkTokens
  by_cases hb : ((words.foldl (chunkStepT cs ov) ([], []))).2.isEmpty = true
  · rw [if_pos hb]
    exact ⟨H1, H2⟩
  · rw [if_neg hb]
    have hbuf : (words.foldl (chunkStepT cs ov) ([], [])).2 ≠ [] := by
      intro h0
      exact hb (by rw [h0]; rfl)
    constructor
    · intro t ht
      rcases List.mem_append.mp ht with ht | ht
      · exact H1 t ht
      · rcases List.mem_singleton.mp ht with rfl
        exact hbuf
    · apply List.chain'_append.mpr
      refine ⟨H2, List.chain'_singleton _, ?_⟩
      intro x hx y hy
      have hyb : y = (words.foldl (chunkStepT cs ov) ([], [])).2 := by
        have := hy
        simp only [List.head?_cons, Option.mem_some_iff] at this
        exact this.symm
      rcases H3 x hx with ⟨ext, hext⟩
      exact hyb ▸ ⟨ext, hext.symm ▸ rfl⟩

/-- C6: with `overlap > 0`, when the chunker continues past an emitted chunk
it seeds the next chunk's token buffer with the last `max(1, overlap // 5)`
tokens of the emitted chunk; hence any two consecutive chunks `i`, `i+1` have
token decompositions where the final `max(1, overlap // 5)` tokens of chunk
`i` form a non-empty prefix of chunk `i+1`'s tokens. -/
theorem c6_consecutive_chunks_share_token_overlap (text : String)
    (cs ov : Nat) (hov : ov ≠ 0) (i : Nat)
    (hi : i + 1 < (chunk_text text cs ov).length) :
    ∃ ws1 ws2 : List String,
      (chunk_text text cs ov).getD i "" = joinSp ws1 ∧
      (chunk_text text cs ov).getD (i + 1) "" = joinSp ws2 ∧
      lastN (max 1 (ov / 5)) ws1 ≠ [] ∧
      List.IsPrefix (lastN (max 1 (ov / 5)) ws1) ws2 := by
  obtain ⟨hne, hch⟩ := chunkTokens_props (pyWords text) cs ov hov
  have hmap := chunk_text_eq_map_join text cs ov
  have hlenT : (chunk_text text cs ov).length =
      (chunkTokens (pyWords text) cs ov).length := by
    rw [hmap, List.length_map]
  have h1 : i < (chunkTokens (pyWords text) cs ov).length := by omega
  have h2 : i + 1 < (chunkTokens (pyWords text) cs ov).length := by omega
  refine ⟨(chunkTokens (pyWords text) cs ov).getD i [],
    (chunkTokens (pyWords text) cs ov).getD (i + 1) [], ?_, ?_, ?_, ?_⟩
  · rw [hmap, List.getD_eq_getElem _ _ (by rw [List.length_map]; omega),
      List.getD_eq_getElem _ _ h1]
    exact List.getElem_map ..
  · rw [hmap, List.getD_eq_getElem _ _ (by rw [List.length_map]; omega),
      List.getD_eq_getElem _ _ h2]
    exact List.getElem_map ..
  · apply lastN_ne_nil (le_max_left 1 _)
    apply hne
    rw [List.getD_eq_getElem _ _ h1]
    exact List.getElem_mem h1
  · have := List.chain'_iff_get.mp hch i (by omega)
    rw [List.getD_eq_getElem _ _ h1, List.getD_eq_getElem _ _ h2]
    simpa [List.get_eq_getElem] using this

/-- C6 witness: `"aa bb cc"` with `chunk_size = 3`, `overlap = 5` produces
three chunks; chunks 0 and 1 share the carried token. -/
theorem c6_witness :
    (5 : Nat) ≠ 0 ∧ 0 + 1 < (chunk_text "aa bb cc" 3 5).length ∧
    ∃ ws1 ws2 : List String,
      (chunk_text "aa bb cc" 3 5).getD 0 "" = joinSp ws1 ∧
      (chunk_text "aa bb cc" 3 5).getD (0 + 1) "" = joinSp ws2 ∧
      lastN (max 1 (5 / 5)) ws1 ≠ [] ∧
      List.IsPrefix (lastN (max 1 (5 / 5)) ws1) ws2 :=
  ⟨by decide, by decide,
   c6_consecutive_chunks_share_token_overlap "aa bb cc" 3 5 (by decide) 0
     (by decide)⟩

/-! Section: Claim C3 — re-ingestion

`add_document` performs no deletion at all: re-ingesting a document with
*changed* content leaves stale chunks from the earlier run in the index.
Re-ingesting with *identical* content does leave exactly the latest chunk
set, but only because the chunk ids are deterministic and the insert is an
id-keyed upsert — proven below as idempotence of the insertion fold. -/

/-- The value-tracking relation for the absorption proof: `M'` agrees with
`M` except possibly at entries whose id is `a`, where only the ids must
agree. -/
def rEnt (a : String) (x y : Entry) : Prop :=
  x.id = y.id ∧ (x.id ≠ a → x = y)

theorem forall2_rEnt_any (a b : String) {M M' : Collection}
    (h : List.Forall₂ (rEnt a) M M') :
    M.any (fun x => x.id == b) = M'.any (fun x => x.id == b) := by
  induction h with
  | nil => rfl
  | cons hxy _ ih =>
    simp only [List.any_cons, hxy.1, ih]

theorem forall2_rEnt_map_eq (a : String) (e' : Entry) (hea : e'.id = a)
    {M M' : Collection} (h : List.Forall₂ (rEnt a) M M') :
    M.map (fun x => if x.id == e'.id then e' else x) =
      M'.map (fun x => if x.id == e'.id then e' else x) := by
  induction h with
  | nil => rfl
  | @cons x y M M' hxy _ ih =>
    simp only [List.map_cons, ih]
    congr 1
    by_cases hid : (x.id == e'.id) = true
    · have hid' : (y.id == e'.id) = true := by rw [← hxy.1]; exact hid
      rw [if_pos hid, if_pos hid']
    · have hxeq : x = y := hxy.2 (fun hxa => hid (by rw [hxa, hea]; simp))
      rw [hxeq]

theorem forall2_rEnt_map_rel (a : String) (e' : Entry) (_hea : e'.id ≠ a)
    {M M' : Collection} (h : List.Forall₂ (rEnt a) M M') :
    List.Forall₂ (rEnt a)
      (M.map (fun x => if x.id == e'.id then e' else x))
      (M'.map (fun x => if x.id == e'.id then e' else x)) := by
  induction h with
  | nil => exact List.Forall₂.nil
  | @cons x y M M' hxy _ ih =>
    simp only [List.map_cons]
    refine List.Forall₂.cons ⟨?_, ?_⟩ ih
    · by_cases hid : (x.id == e'.id) = true
      · have hid' : (y.id == e'.id) = true := by rw [← hxy.1]; exact hid
        rw [if_pos hid, if_pos hid']
      · have hid' : ¬ (y.id == e'.id) = true := by rw [← hxy.1]; exact hid
        rw [if_neg hid, if_neg hid']
        exact hxy.1
    · intro hne
      by_cases hid : (x.id == e'.id) = true
      · have hid' : (y.id == e'.id) = true := by rw [← hxy.1]; exact hid
        rw [if_pos hid, if_pos hid']
      · have hid' : ¬ (y.id == e'.id) = true := by rw [← hxy.1]; exact hid
        rw [if_neg hid, if_neg hid']
        apply hxy.2
        rw [if_neg hid] at hne
        exact hne

theorem forall2_rEnt_eq_of_no_id (a : String) {M M' : Collection}
    (h : List.Forall₂ (rEnt a) M M')
    (hno : M.any (fun x => x.id == a) = false) : M = M' := by
  induction h with
  | nil => rfl
  | @cons x y M M' hxy _ ih =>
    rw [List.any_cons, Bool.or_eq_false_iff] at hno
    have hxa : x.id ≠ a := by
      intro hc
      have := hno.1
      rw [hc] at this
      simp at this
    rw [hxy.2 hxa, ih hno.2]

theorem insertEntries_rel_absorb (a : String) (l : List Entry) :
    ∀ {M M' : Collection}, List.Forall₂ (rEnt a) M M' →
      l.any (fun x => x.id == a) = true →
      insertEntries M l = insertEntries M' l := by
  induction l with
  | nil =>
    intro M M' _ hany
    exact absurd hany (by simp)
  | cons e l ih =>
    intro M M' hf hany
    show insertEntries (addEntry M e) l = insertEntries (addEntry M' e) l
    have hanyeq := forall2_rEnt_any a e.id hf
    unfold addEntry
    by_cases hb : M.any (fun x => x.id == e.id) = true
    · have hb' : M'.any (fun x => x.id == e.id) = true := by
        rw [← hanyeq]; exact hb
      rw [if_pos hb, if_pos hb']
      by_cases hea : e.id = a
      · rw [forall2_rEnt_map_eq a e hea hf]
      · refine ih (forall2_rEnt_map_rel a e hea hf) ?_
        rw [List.any_cons, Bool.or_eq_true] at hany
        rcases hany with h | h
        · exact absurd (eq_of_beq h) hea
        · exact h
    · have hb' : ¬ M'.any (fun x => x.id == e.id) = true := by
        rw [← hanyeq]; exact hb
      rw [if_neg hb, if_neg hb']
      by_cases hea : e.id = a
      · have hno : M.any (fun x => x.id == a) = false := by
          rw [← hea]; exact Bool.eq_false_iff.mpr hb
        rw [forall2_rEnt_eq_of_no_id a hf hno]
      · refine ih
          (List.rel_append hf
            (List.Forall₂.cons ⟨rfl, fun _ => rfl⟩ List.Forall₂.nil)) ?_
        rw [List.any_cons, Bool.or_eq_true] at hany
        rcases hany with h | h
        · exact absurd (eq_of_beq h) hea
        · exact h

theorem addEntry_holders (s : Collection) (e : Entry) :
    (∀ x ∈ addEntry s e, x.id = e.id → x = e) ∧
    (∃ x ∈ addEntry s e, x.id = e.id) := by
  unfold addEntry
  by_cases hb : s.any (fun x => x.id == e.id) = true
  · rw [if_pos hb]
    constructor
    · intro x hx hxe
      rcases List.mem_map.mp hx with ⟨y, _, hyx⟩
      by_cases hid : (y.id == e.id) = true
      · rw [if_pos hid] at hyx
        exact hyx.symm
      · rw [if_neg hid] at hyx
        exfalso
        apply hid
        rw [hyx]
        exact beq_iff_eq.mpr hxe
    · rcases List.any_eq_true.mp hb with ⟨y, hy, hyb⟩
      exact ⟨e, List.mem_map.mpr ⟨y, hy, by rw [if_pos hyb]⟩, rfl⟩
  · rw [if_neg hb]
    constructor
    · intro x hx hxe
      rcases List.mem_append.mp hx with hx | hx
      · exfalso
        apply hb
        exact List.any_eq_true.mpr ⟨x, hx, beq_iff_eq.mpr hxe⟩
      · exact List.mem_singleton.mp hx
    · exact ⟨e, List.mem_append_right _ (List.mem_singleton.mpr rfl), rfl⟩

theorem addEntry_exists_id (b : String) (s : Collection) (e : Entry)
    (h : ∃ x ∈ s, x.id = b) : ∃ x ∈ addEntry s e, x.id = b := by
  unfold addEntry
  by_cases hany : s.any (fun x => x.id == e.id) = true
  · rw [if_pos hany]
    rcases h with ⟨x, hx, hxb⟩
    by_cases hid : (x.id == e.id) = true
    · refine ⟨e, List.mem_map.mpr ⟨x, hx, by rw [if_pos hid]⟩, ?_⟩
      rw [← eq_of_beq hid]
      exact hxb
    · exact ⟨x, List.mem_map.mpr ⟨x, hx, by rw [if_neg hid]⟩, hxb⟩
  · rw [if_neg hany]
    rcases h with ⟨x, hx, hxb⟩
    exact ⟨x, List.mem_append_left _ hx, hxb⟩

theorem insertEntries_exists_id (b : String) (l : List Entry) :
    ∀ s : Collection, (∃ x ∈ s, x.id = b) →
      ∃ x ∈ insertEntries s l, x.id = b := by
  induction l with
  | nil => intro s h; exact h
  | cons e l ih => intro s h; exact ih _ (addEntry_exists_id b s e h)

theorem addEntry_holders_preserved (a : String) (v e : Entry)
    (s : Collection) (hea : ¬ (e.id == a) = true)
    (h1 : ∀ x ∈ s, x.id = a → x = v) (h2 : ∃ x ∈ s, x.id = a) :
    (∀ x ∈ addEntry s e, x.id = a → x = v) ∧
    (∃ x ∈ addEntry s e, x.id = a) := by
  unfold addEntry
  by_cases hb : s.any (fun x => x.id == e.id) = true
  · rw [if_pos hb]
    constructor
    · intro x hx hxa
      rcases List.mem_map.mp hx with ⟨y, hy, hyx⟩
      by_cases hid : (y.id == e.id) = true
      · exfalso
        apply hea
        rw [if_pos hid] at hyx
        rw [hyx]
        exact beq_iff_eq.mpr hxa
      · rw [if_neg hid] at hyx
        exact h1 x (hyx ▸ hy) hxa
    · rcases h2 with ⟨x, hx, hxa⟩
      refine ⟨x, List.mem_map.mpr ⟨x, hx, ?_⟩, hxa⟩
      rw [if_neg]
      intro hc
      apply hea
      rw [← eq_of_beq hc]
      exact beq_iff_eq.mpr hxa
  · rw [if_neg hb]
    constructor
    · intro x hx hxa
      rcases List.mem_append.mp hx with hx | hx
      · exact h1 x hx hxa
      · exfalso
        rcases List.mem_singleton.mp hx with rfl
        apply hea
        exact beq_iff_eq.mpr hxa
    · rcases h2 with ⟨x, hx, hxa⟩
      exact ⟨x, List.mem_append_left _ hx, hxa⟩

theorem insertEntries_holders_preserved (a : String) (v : Entry)
    (l : List Entry) (hl : l.any (fun x => x.id == a) = false) :
    ∀ s : Collection, (∀ x ∈ s, x.id = a → x = v) → (∃ x ∈ s, x.id = a) →
      (∀ x ∈ insertEntries s l, x.id = a → x = v) ∧
      (∃ x ∈ insertEntries s l, x.id = a) := by
  induction l with
  | nil => intro s h1 h2; exact ⟨h1, h2⟩
  | cons e l ih =>
    intro s h1 h2
    rw [List.any_cons, Bool.or_eq_false_iff] at hl
    have hea : ¬ (e.id == a) = true := by
      rw [hl.1]
      exact Bool.false_ne_true
    obtain ⟨g1, g2⟩ := addEntry_holders_preserved a v e s hea h1 h2
    exact ih hl.2 (addEntry s e) g1 g2

theorem addEntry_of_any_true {s : Collection} {e : Entry}
    (hb : s.any (fun x => x.id == e.id) = true) :
    addEntry s e = s.map (fun x => if x.id == e.id then e else x) := by
  unfold addEntry
  rw [if_pos hb]

/-- The insertion fold of `add_document` is idempotent for any batch: since
each insert is an id-keyed upsert and the final write for an id wins,
replaying the same batch leaves the collection unchanged. -/
theorem insertEntries_idem (l : List Entry) :
    ∀ c : Collection, insertEntries (insertEntries c l) l = insertEntries c l := by
  induction l with
  | nil => intro c; rfl
  | cons e l ih =>
    intro c
    show insertEntries (addEntry (insertEntries (addEntry c e) l) e) l =
      insertEntries (addEntry c e) l
    obtain ⟨hold, hex⟩ := addEntry_holders c e
    by_cases hin : l.any (fun x => x.id == e.id) = true
    · have haM : ∃ x ∈ insertEntries (addEntry c e) l, x.id = e.id :=
        insertEntries_exists_id e.id l (addEntry c e) hex
    -- the id is rewritten again inside `l`: the replacement is absorbed
      have hb : (insertEntries (addEntry c e) l).any
          (fun x => x.id == e.id) = true := by
        rcases haM with ⟨x, hx, hxe⟩
        exact List.any_eq_true.mpr ⟨x, hx, beq_iff_eq.mpr hxe⟩
      rw [addEntry_of_any_true hb]
      have hrel : List.Forall₂ (rEnt e.id)
          (insertEntries (addEntry c e) l)
          ((insertEntries (addEntry c e) l).map
            (fun x => if x.id == e.id then e else x)) := by
        rw [List.forall₂_map_right_iff]
        apply List.forall₂_same.mpr
        intro x _
        constructor
        · by_cases hid : (x.id == e.id) = true
          · rw [if_pos hid]
            exact eq_of_beq hid
          · rw [if_neg hid]
        · intro hxa
          rw [if_neg]
          intro hc
          exact hxa (eq_of_beq hc)
      have h2 := insertEntries_rel_absorb e.id l hrel hin
      rw [← h2, ih (addEntry c e)]
    · have hno : l.any (fun x => x.id == e.id) = false :=
        Bool.eq_false_iff.mpr hin
      obtain ⟨hold', hex'⟩ :=
        insertEntries_holders_preserved e.id e l hno (addEntry c e) hold hex
      have hb : (insertEntries (addEntry c e) l).any
          (fun x => x.id == e.id) = true := by
        rcases hex' with ⟨x, hx, hxe⟩
        exact List.any_eq_true.mpr ⟨x, hx, beq_iff_eq.mpr hxe⟩
      have hpt : ∀ x ∈ insertEntries (addEntry c e) l,
          (if x.id == e.id then e else x) = x := by
        intro x hx
        by_cases hid : (x.id == e.id) = true
        · rw [if_pos hid]
          exact (hold' x hx (eq_of_beq hid)).symm
        · rw [if_neg hid]
      have haddM : addEntry (insertEntries (addEntry c e) l) e =
          insertEntries (addEntry c e) l := by
        rw [addEntry_of_any_true hb, List.map_congr_left hpt, List.map_id']
      rw [haddM, ih (addEntry c e)]

set_option maxRecDepth 10000 in
/-- C3 counterexample: `add_document` deletes nothing on re-ingestion.  User
1 ingests document 7 as a single 501-character word (which chunks into two
chunks `7_chunk_0`, `7_chunk_1`), then re-ingests the same document id with
content `"hello world"` (one chunk). The second run creates only
`7_chunk_0`, yet the stale `7_chunk_1` from the first run is still present
afterwards — so no "delete prior chunks before inserting" step exists. -/
theorem c3_counterexample :
    ((add_document
        (add_document [] (.int 1) (.int 7) "t"
          (List.asString (List.replicate 501 'a')) []).2
        (.int 1) (.int 7) "t" "hello world" []).2.any
      (fun e => e.id == "7_chunk_1") = true) ∧
    ((add_document
        (add_document [] (.int 1) (.int 7) "t"
          (List.asString (List.replicate 501 'a')) []).2
        (.int 1) (.int 7) "t" "hello world" []).1 =
      .ok ["7_chunk_0"] 1 "Document added with 1 chunks") := by
  decide

/-- C3 (amended): re-running `add_document` with the same document id and
identical content is idempotent — the second run returns the same result and
leaves the Vector Index exactly as the first run did (the latest chunk set,
no duplicates) — but not through any deletion: the chunk ids are
deterministic and each insert is an id-keyed upsert. -/
theorem c3_identical_readd_idempotent (c : Collection)
    (user_id document_id : PyVal) (title content : String) (metadata : Dict) :
    add_document (add_document c user_id document_id title content metadata).2
        user_id document_id title content metadata =
      ((add_document c user_id document_id title content metadata).1,
       (add_document c user_id document_id title content metadata).2) := by
  unfold add_document
  by_cases hch : (chunk_text content 500 50).isEmpty = true
  · simp only [hch, if_true]
  · have hch' : (chunk_text content 500 50).isEmpty = false :=
      Bool.eq_false_iff.mpr hch
    simp only [hch', Bool.false_eq_true, if_false]
    rw [insertEntries_idem]

end RAG
